import Mathlib

/-!
Verification development for the progress-grid-pwa fitness tracker.

We shallowly embed the client-side logic (Dashboard stats aggregation,
History expansion toggling, Workout saving) and the relational store
described by the SQL migration (tables `workouts`/`exercises` with the
`ON DELETE CASCADE` foreign key and the `update_updated_at_column`
trigger), and prove properties of the embedded definitions.

Conventions for the embedding:
* A JavaScript `Date` value is its epoch timestamp in integer
  milliseconds (`Int`), exactly what `Date.getTime()` yields and what
  `>=` compares on `Date` objects.
* A SQL `DATE` column value (the `date` field of a workout row, a string
  `"YYYY-MM-DD"` in the client) is the number of calendar days since the
  Unix epoch (`Int`); `new Date("YYYY-MM-DD")` parses to midnight UTC,
  i.e. to `days * 86400000` milliseconds.
* JavaScript numbers occurring in the data (sets/reps/weight) are
  modelled as `Int`: the only fact the claims need is that they can be
  negative and that no arithmetic is performed on them.
-/

/-- Milliseconds in one day, as in `7 * 24 * 60 * 60 * 1000`. -/
def msPerDay : Int := 86400000

/-- Days since 1970-01-01 of the civil date y-m-d (proleptic Gregorian),
the standard days-from-civil algorithm; used only to name concrete
calendar dates in scenarios. -/
def daysFromCivil (y : Int) (m d : Nat) : Int :=
  let y' : Int := if m ≤ 2 then y - 1 else y
  let era : Int := (if 0 ≤ y' then y' else y' - 399) / 400
  let yoe : Int := y' - era * 400
  let mp : Int := ((m : Int) + 9) % 12
  let doy : Int := (153 * mp + 2) / 5 + (d : Int) - 1
  let doe : Int := yoe * 365 + yoe / 4 - yoe / 100 + doy
  era * 146097 + doe - 719468

/-- The `Workout` interface of `Dashboard.tsx` (id, name, date, notes);
`date` is the `DATE` column value in days since epoch. -/
structure DWorkout where
  id : String
  name : String
  date : Int
  notes : Option String
deriving DecidableEq, Repr

/-- The `Stats` interface of `Dashboard.tsx`. -/
structure Stats where
  totalWorkouts : Nat
  thisWeek : Nat
  thisMonth : Nat
deriving DecidableEq, Repr

/-- `new Date(w.date)` for a `DATE` value: midnight UTC of that day,
in epoch milliseconds. -/
def dateMs (w : DWorkout) : Int := w.date * msPerDay

/-- `calculateStats` from `Dashboard.tsx` (lines 63-76).  `now` is the
epoch-millisecond instant sampled by `new Date()`; `weekAgo`/`monthAgo`
subtract exact 7- and 30-day millisecond spans; the filters compare
`Date` objects, i.e. epoch-millisecond instants. -/
def calculateStats (workouts : List DWorkout) (now : Int) : Stats :=
  let weekAgo := now - 7 * msPerDay
  let monthAgo := now - 30 * msPerDay
  let thisWeek := (workouts.filter (fun w => weekAgo ≤ dateMs w)).length
  let thisMonth := (workouts.filter (fun w => monthAgo ≤ dateMs w)).length
  { totalWorkouts := workouts.length, thisWeek := thisWeek, thisMonth := thisMonth }

/-- The aggregation as the spec words it (for comparison with
`calculateStats`): "Window boundaries are inclusive; comparisons use
calendar date, not time-of-day."  The calendar date of `now` is its
floor-division day number, and a workout counts for `thisWeek` iff its
calendar date is at least that day minus 7 (inclusive), analogously for
`thisMonth` with 30. -/
def calculateStatsSpecCalendar (workouts : List DWorkout) (now : Int) : Stats :=
  let today := Int.fdiv now msPerDay
  let thisWeek := (workouts.filter (fun w => today - 7 ≤ w.date)).length
  let thisMonth := (workouts.filter (fun w => today - 30 ≤ w.date)).length
  { totalWorkouts := workouts.length, thisWeek := thisWeek, thisMonth := thisMonth }

/-- `fetchWorkouts` from `Dashboard.tsx` (lines 40-61): the query
`order('date', ascending: false).limit(5)` — the stored rows sorted by
`date` descending (ties kept in storage order, here modelled by a stable
sort) and truncated to the first 5. -/
def fetchDashboardWorkouts (rows : List DWorkout) : List DWorkout :=
  (rows.insertionSort (fun a b => b.date ≤ a.date)).take 5

/-- The scenario of spec §8: workouts dated 2025-01-30, 2025-01-25,
2025-01-01 and 2024-12-01 (most recent first). -/
def scenarioWorkouts : List DWorkout :=
  [⟨"w1", "A", daysFromCivil 2025 1 30, none⟩,
   ⟨"w2", "B", daysFromCivil 2025 1 25, none⟩,
   ⟨"w3", "C", daysFromCivil 2025 1 1, none⟩,
   ⟨"w4", "D", daysFromCivil 2024 12 1, none⟩]

/-- Counting workouts by a predicate on the date only is invariant under
replacing the list by one with the same date sequence. -/
theorem countP_congr_of_map_date (p : Int → Bool) :
    ∀ l₁ l₂ : List DWorkout, l₁.map DWorkout.date = l₂.map DWorkout.date →
      l₁.countP (fun w => p w.date) = l₂.countP (fun w => p w.date) := by
  intro l₁
  induction l₁ with
  | nil =>
      intro l₂ h
      cases l₂ <;> simp_all
  | cons a l ih =>
      intro l₂ h
      cases l₂ with
      | nil => simp at h
      | cons b l₂' =>
          simp only [List.map_cons, List.cons.injEq] at h
          simp only [List.countP_cons, ih l₂' h.2, h.1]

/-- Filter-length version of `countP_congr_of_map_date`. -/
theorem filterlen_congr_of_map_date (p : Int → Bool) (l₁ l₂ : List DWorkout)
    (h : l₁.map DWorkout.date = l₂.map DWorkout.date) :
    (l₁.filter (fun w => p w.date)).length = (l₂.filter (fun w => p w.date)).length := by
  rw [← List.countP_eq_length_filter, ← List.countP_eq_length_filter]
  exact countP_congr_of_map_date p l₁ l₂ h

/-- C1 counterexample: with one workout dated 2025-01-24 and `now` at
noon of 2025-01-31, the code's instant-based comparison excludes the
workout from `thisWeek` (its midnight is before noon of 2025-01-24),
while the calendar-date reading of the spec includes it: the two
disagree, so the claim that the comparison is made on the calendar date
alone is false of `calculateStats`. -/
theorem calculateStats_calendar_counterexample :
    calculateStats [⟨"w1", "W", daysFromCivil 2025 1 24, none⟩]
        (daysFromCivil 2025 1 31 * msPerDay + 43200000) ≠
      calculateStatsSpecCalendar [⟨"w1", "W", daysFromCivil 2025 1 24, none⟩]
        (daysFromCivil 2025 1 31 * msPerDay + 43200000) := by
  decide

/-- C1 (amended): `calculateStats` counts, for `thisWeek`, the workouts
whose date (as a midnight-UTC instant) is at least `now - 7*24h` in
exact milliseconds, and for `thisMonth` those at least `now - 30*24h`;
both boundaries are inclusive at the instant level, but the comparison
involves the full time-of-day of `now`: it agrees with the spec's
calendar-date comparison exactly when `now` is a midnight instant. -/
theorem calculateStats_instant_windows (ws : List DWorkout) (now : Int) :
    (calculateStats ws now).totalWorkouts = ws.length ∧
    (calculateStats ws now).thisWeek =
      ws.countP (fun w => decide (now - 7 * msPerDay ≤ dateMs w)) ∧
    (calculateStats ws now).thisMonth =
      ws.countP (fun w => decide (now - 30 * msPerDay ≤ dateMs w)) ∧
    (msPerDay ∣ now → calculateStats ws now = calculateStatsSpecCalendar ws now) := by
  refine ⟨rfl, (List.countP_eq_length_filter _ _).symm,
    (List.countP_eq_length_filter _ _).symm, ?_⟩
  rintro ⟨k, rfl⟩
  simp only [calculateStats, calculateStatsSpecCalendar, dateMs]
  have hfd : Int.fdiv (msPerDay * k) msPerDay = k := by
    rw [Int.mul_fdiv_cancel_left]
    decide
  rw [hfd]
  have hms : (0 : Int) < msPerDay := by decide
  congr 1
  · refine congrArg List.length (List.filter_congr ?_)
    intro w _
    simp only [decide_eq_decide]
    constructor
    · intro hle; nlinarith
    · intro hle; nlinarith
  · refine congrArg List.length (List.filter_congr ?_)
    intro w _
    simp only [decide_eq_decide]
    constructor
    · intro hle; nlinarith
    · intro hle; nlinarith

/-- Witness for C1's amended theorem at a concrete midnight instant. -/
theorem calculateStats_instant_windows_witness :
    msPerDay ∣ (1738281600000 : Int) ∧
    calculateStats scenarioWorkouts 1738281600000 =
      calculateStatsSpecCalendar scenarioWorkouts 1738281600000 :=
  ⟨⟨20119, by decide⟩,
    (calculateStats_instant_windows scenarioWorkouts 1738281600000).2.2.2 ⟨20119, by decide⟩⟩

/-- C2 counterexample: at noon of 2025-01-31 (an instant on that
calendar date) the code returns `thisMonth = 2`, not the claimed 3: the
2025-01-01 workout's midnight is strictly before `now - 30*24h`. -/
theorem scenario_midday_counterexample :
    calculateStats scenarioWorkouts (daysFromCivil 2025 1 31 * msPerDay + 43200000) =
        ⟨4, 2, 2⟩ ∧
    calculateStats scenarioWorkouts (daysFromCivil 2025 1 31 * msPerDay + 43200000) ≠
        ⟨4, 2, 3⟩ := by
  constructor
  · decide
  · decide

/-- C2 (amended): for `now` an instant of calendar date 2025-01-31,
i.e. `now = midnight(2025-01-31) + t` with `0 ≤ t < 24h`, the scenario
yields `totalWorkouts = 4` and `thisWeek = 2` always, but
`thisMonth = 3` only at the exact midnight instant (`t = 0`); for every
later instant of that date `thisMonth = 2`. -/
theorem scenario_stats_by_time_of_day (t : Int) (h0 : 0 ≤ t) (h1 : t < msPerDay) :
    calculateStats scenarioWorkouts (daysFromCivil 2025 1 31 * msPerDay + t) =
      ⟨4, 2, if t = 0 then 3 else 2⟩ := by
  by_cases ht : t = 0
  · subst ht
    simp only [if_pos rfl]
    decide
  · rw [if_neg ht]
    rw [show msPerDay = 86400000 from rfl] at h1
    have h31 : daysFromCivil 2025 1 31 = 20119 := by decide
    have h30 : daysFromCivil 2025 1 30 = 20118 := by decide
    have h25 : daysFromCivil 2025 1 25 = 20113 := by decide
    have h01 : daysFromCivil 2025 1 1 = 20089 := by decide
    have h1201 : daysFromCivil 2024 12 1 = 20058 := by decide
    have c1 : decide (20119 * msPerDay + t - 7 * msPerDay ≤ (20118 : Int) * msPerDay) = true := by
      simp only [msPerDay, decide_eq_true_eq]; omega
    have c2 : decide (20119 * msPerDay + t - 7 * msPerDay ≤ (20113 : Int) * msPerDay) = true := by
      simp only [msPerDay, decide_eq_true_eq]; omega
    have c3 : decide (20119 * msPerDay + t - 7 * msPerDay ≤ (20089 : Int) * msPerDay) = false := by
      simp only [msPerDay, decide_eq_false_iff_not]; omega
    have c4 : decide (20119 * msPerDay + t - 7 * msPerDay ≤ (20058 : Int) * msPerDay) = false := by
      simp only [msPerDay, decide_eq_false_iff_not]; omega
    have m1 : decide (20119 * msPerDay + t - 30 * msPerDay ≤ (20118 : Int) * msPerDay) = true := by
      simp only [msPerDay, decide_eq_true_eq]; omega
    have m2 : decide (20119 * msPerDay + t - 30 * msPerDay ≤ (20113 : Int) * msPerDay) = true := by
      simp only [msPerDay, decide_eq_true_eq]; omega
    have m3 : decide (20119 * msPerDay + t - 30 * msPerDay ≤ (20089 : Int) * msPerDay) = false := by
      simp only [msPerDay, decide_eq_false_iff_not]; omega
    have m4 : decide (20119 * msPerDay + t - 30 * msPerDay ≤ (20058 : Int) * msPerDay) = false := by
      simp only [msPerDay, decide_eq_false_iff_not]; omega
    simp only [calculateStats, scenarioWorkouts, dateMs, h31, h30, h25, h01, h1201,
      List.filter_cons, List.filter_nil, c1, c2, c3, c4, m1, m2, m3, m4,
      if_true, if_false, List.length_cons, List.length_nil]
    decide

/-- Witness for C2's amended theorem at noon of 2025-01-31. -/
theorem scenario_stats_by_time_of_day_witness :
    (0 : Int) ≤ 43200000 ∧ (43200000 : Int) < msPerDay ∧
    calculateStats scenarioWorkouts (daysFromCivil 2025 1 31 * msPerDay + 43200000) =
      ⟨4, 2, if (43200000 : Int) = 0 then 3 else 2⟩ :=
  ⟨by decide, by decide, scenario_stats_by_time_of_day 43200000 (by decide) (by decide)⟩

/-- C8: the aggregation is a deterministic function of its inputs: two
invocations on the same workout sequence and the same sampled instant
produce the same stats — indeed the output depends only on the sequence
of `date` values (and `now`), not on ids, names or notes. -/
theorem calculateStats_deterministic (ws₁ ws₂ : List DWorkout) (now₁ now₂ : Int)
    (hdates : ws₁.map DWorkout.date = ws₂.map DWorkout.date) (hnow : now₁ = now₂) :
    calculateStats ws₁ now₁ = calculateStats ws₂ now₂ := by
  subst hnow
  have hlen : ws₁.length = ws₂.length := by
    simpa using congrArg List.length hdates
  simp only [calculateStats, dateMs]
  congr 1
  · exact filterlen_congr_of_map_date
      (fun d => decide (now₁ - 7 * msPerDay ≤ d * msPerDay)) ws₁ ws₂ hdates
  · exact filterlen_congr_of_map_date
      (fun d => decide (now₁ - 30 * msPerDay ≤ d * msPerDay)) ws₁ ws₂ hdates

/-- Witness for C8 at a concrete pair of runs: two lists with the same
dates but different names give identical stats. -/
theorem calculateStats_deterministic_witness :
    calculateStats scenarioWorkouts 1738324800000 =
      calculateStats
        [⟨"x1", "P", daysFromCivil 2025 1 30, some "n"⟩,
         ⟨"x2", "Q", daysFromCivil 2025 1 25, none⟩,
         ⟨"x3", "R", daysFromCivil 2025 1 1, none⟩,
         ⟨"x4", "S", daysFromCivil 2024 12 1, none⟩] 1738324800000 :=
  calculateStats_deterministic _ _ _ _ (by decide) rfl

/-- C9: for every input sequence and every `now`, the computed stats
satisfy `thisWeek ≤ thisMonth ≤ totalWorkouts`; and the dashboard's
input window keeps at most 5 records (the query's `.limit(5)`), so the
stats computed over it have `totalWorkouts ≤ 5`. -/
theorem stats_inequalities_and_cap :
    (∀ (ws : List DWorkout) (now : Int),
        (calculateStats ws now).thisWeek ≤ (calculateStats ws now).thisMonth ∧
        (calculateStats ws now).thisMonth ≤ (calculateStats ws now).totalWorkouts) ∧
    ∀ (rows : List DWorkout) (now : Int),
        (calculateStats (fetchDashboardWorkouts rows) now).totalWorkouts ≤ 5 := by
  constructor
  · intro ws now
    constructor
    · simp only [calculateStats]
      rw [← List.countP_eq_length_filter, ← List.countP_eq_length_filter]
      apply List.countP_mono_left
      intro w _ h
      simp only [decide_eq_true_eq, msPerDay] at h ⊢
      omega
    · simp only [calculateStats]
      exact List.length_filter_le _ _
  · intro rows now
    simp only [calculateStats, fetchDashboardWorkouts]
    calc (List.take 5 (rows.insertionSort fun a b => b.date ≤ a.date)).length ≤ 5 := by
          rw [List.length_take]
          exact min_le_left _ _

/-- JavaScript string whitespace for `trim()` (the characters relevant
here: space, tab, newline, carriage return). -/
def isJsSpace (c : Char) : Bool :=
  c = ' ' ∨ c = '\t' ∨ c = '\n' ∨ c = '\r'

/-- `s.trim()` of JavaScript: strip leading and trailing whitespace. -/
def strTrim (s : String) : String :=
  String.mk (((s.data.dropWhile isJsSpace).reverse.dropWhile isJsSpace).reverse)

/-- One entry of the `exercises` array built in `Workout.tsx`
(lines 330-337): the fields sent to the store.  `sets`, `reps` and
`weight` are JavaScript numbers, which can be negative. -/
structure ExerciseInput where
  name : String
  sets : Int
  reps : Int
  weight : Int
  notes : String
deriving DecidableEq, Repr

/-- A row of the `workouts` table of the migration (lines 2-10):
id, user_id, name, date (days since epoch), notes, created_at and
updated_at (epoch timestamps). -/
structure WorkoutRow where
  id : Nat
  user_id : String
  name : String
  date : Int
  notes : String
  created_at : Nat
  updated_at : Nat
deriving DecidableEq, Repr

/-- A row of the `exercises` table of the migration (lines 13-22), with
the `workout_id` foreign key. -/
structure ExerciseRow where
  id : Nat
  workout_id : Nat
  name : String
  sets : Int
  reps : Int
  weight : Int
  notes : String
  created_at : Nat
deriving DecidableEq, Repr

/-- The record store: the two relations and an id supply (standing for
`gen_random_uuid()`: fresh ids are the values `≥ nextId`). -/
structure Store where
  workouts : List WorkoutRow
  exercises : List ExerciseRow
  nextId : Nat
deriving DecidableEq, Repr

/-- `INSERT INTO workouts` with the column defaults of the migration:
`date` defaults to the current date and `created_at`/`updated_at` both
default to `NOW()`. -/
def insertWorkout (st : Store) (uid name notes : String) (today : Int) (now : Nat) : Store :=
  { st with
    workouts := st.workouts ++ [⟨st.nextId, uid, name, today, notes, now, now⟩],
    nextId := st.nextId + 1 }

/-- `INSERT INTO exercises` of a batch: the foreign-key constraint
`workout_id REFERENCES workouts(id)` makes the insert fail (`none`)
unless the referenced workout exists; on success the whole batch is
appended.  The schema has no check constraints on `name`, `sets`,
`reps` or `weight`, so any values are accepted. -/
def insertExercises (st : Store) (wid : Nat) (exs : List ExerciseInput) (now : Nat) :
    Option Store :=
  if st.workouts.any (fun w => w.id = wid) then
    some { st with
      exercises := st.exercises ++ exs.enum.map (fun p =>
        ⟨st.nextId + p.1, wid, p.2.name, p.2.sets, p.2.reps, p.2.weight, p.2.notes, now⟩),
      nextId := st.nextId + exs.length }
  else none

/-- `UPDATE workouts SET name, notes WHERE id = wid` together with the
`update_updated_at_column` trigger of the migration (lines 101-114):
`updated_at` is set to `NOW()` on the updated row and `created_at` is
not touched. -/
def updateWorkout (st : Store) (wid : Nat) (name notes : String) (now : Nat) : Store :=
  { st with workouts := st.workouts.map (fun w =>
      if w.id = wid then { w with name := name, notes := notes, updated_at := now } else w) }

/-- `DELETE FROM workouts WHERE id = wid`: the `ON DELETE CASCADE`
clause of the `exercises.workout_id` foreign key also removes every
exercise row referencing the deleted workout. -/
def deleteWorkout (st : Store) (wid : Nat) : Store :=
  { st with
    workouts := st.workouts.filter (fun w => w.id ≠ wid),
    exercises := st.exercises.filter (fun e => e.workout_id ≠ wid) }

/-- The exercises of one workout, as `History.tsx` fetches them
(`.eq('workout_id', workout.id)`, lines 55-58). -/
def getExercisesFor (st : Store) (wid : Nat) : List ExerciseRow :=
  st.exercises.filter (fun e => e.workout_id = wid)

/-- Lookup of a workout row by id. -/
def findWorkout (st : Store) (wid : Nat) : Option WorkoutRow :=
  st.workouts.find? (fun w => w.id = wid)

/-- The outcomes of `saveWorkout` in `Workout.tsx`: the two client-side
validation failures (lines 299-313), a store failure on either insert
(the `catch`), or success. -/
inductive SaveResult where
  | validationName
  | validationNoExercises
  | storeErrorWorkout
  | storeErrorExercises
  | ok
deriving DecidableEq, Repr

/-- `saveWorkout` from `Workout.tsx` (lines 298-360).  The two booleans
are the oracle for exogenous store failures (network etc.) of the two
inserts; the `exercises` table insert happens only after the workout
insert succeeded, and a failure of the batch is caught without deleting
the already-inserted workout row. -/
def saveWorkout (st : Store) (uid workoutName workoutNotes : String)
    (exercises : List ExerciseInput) (today : Int) (now : Nat)
    (workoutInsertOk exercisesInsertOk : Bool) : SaveResult × Store :=
  if strTrim workoutName = "" then (.validationName, st)
  else if exercises.length = 0 then (.validationNoExercises, st)
  else if workoutInsertOk = false then (.storeErrorWorkout, st)
  else
    let st1 := insertWorkout st uid workoutName workoutNotes today now
    if exercisesInsertOk = false then (.storeErrorExercises, st1)
    else
      match insertExercises st1 st.nextId exercises now with
      | some st2 => (.ok, st2)
      | none => (.storeErrorExercises, st1)

/-- The empty store. -/
def emptyStore : Store := ⟨[], [], 0⟩

/-- C6: for every owner and any store state, saving a workout whose name
is empty fails the client-side validation (the `ValidationError` toast)
before any insert is attempted, so the store is returned unchanged: no
record is persisted. -/
theorem createWorkout_empty_name_rejected (st : Store) (uid notes : String)
    (exs : List ExerciseInput) (today : Int) (now : Nat) (a b : Bool) :
    saveWorkout st uid "" notes exs today now a b = (SaveResult.validationName, st) := by
  have h : strTrim "" = "" := rfl
  simp [saveWorkout, h]

/-- C3 counterexample: a batch whose single exercise has an empty name
and negative sets, reps and weight is accepted: `saveWorkout` reports
success and the exercise row is created, because neither the client code
nor the schema validates these fields. -/
theorem addExercises_no_validation_counterexample :
    (saveWorkout emptyStore "u" "Legs" "" [⟨"", -3, -1, -10, ""⟩] 20000 50 true true).1 =
        SaveResult.ok ∧
    (saveWorkout emptyStore "u" "Legs" "" [⟨"", -3, -1, -10, ""⟩] 20000 50 true true).2.exercises.length = 1 := by
  constructor
  · decide
  · decide

/-- C3 (amended): `saveWorkout` validates only that the workout name is
nonempty after trimming and that the exercise list is nonempty; a batch
containing an exercise with an empty name or a negative sets, reps or
weight value is nevertheless submitted and, when the store accepts the
inserts, the whole batch is created and the operation succeeds. -/
theorem addExercises_unvalidated_batch (st : Store) (uid n notes : String)
    (exs : List ExerciseInput) (today : Int) (now : Nat)
    (hn : strTrim n ≠ "") (he : exs ≠ [])
    (_hbad : ∃ e ∈ exs, e.name = "" ∨ e.sets < 0 ∨ e.reps < 0 ∨ e.weight < 0) :
    (saveWorkout st uid n notes exs today now true true).1 = SaveResult.ok ∧
    (saveWorkout st uid n notes exs today now true true).2.exercises.length =
      st.exercises.length + exs.length := by
  have hlen : exs.length ≠ 0 := by
    intro h
    exact he (List.length_eq_zero.mp h)
  have hany : ((insertWorkout st uid n notes today now).workouts.any
      (fun w => w.id = st.nextId)) = true := by
    simp [insertWorkout]
  simp [saveWorkout, hn, hlen, insertExercises, hany, insertWorkout]

/-- Witness for C3's amended theorem on a concrete invalid batch. -/
theorem addExercises_unvalidated_batch_witness :
    strTrim "Legs" ≠ "" ∧
    ([⟨"", -3, -1, -10, ""⟩] : List ExerciseInput) ≠ [] ∧
    (∃ e ∈ ([⟨"", -3, -1, -10, ""⟩] : List ExerciseInput),
        e.name = "" ∨ e.sets < 0 ∨ e.reps < 0 ∨ e.weight < 0) ∧
    (saveWorkout emptyStore "u" "Legs" "n" [⟨"", -3, -1, -10, ""⟩] 20000 50 true true).1 =
        SaveResult.ok ∧
    (saveWorkout emptyStore "u" "Legs" "n" [⟨"", -3, -1, -10, ""⟩] 20000 50 true true).2.exercises.length =
      emptyStore.exercises.length + ([⟨"", -3, -1, -10, ""⟩] : List ExerciseInput).length :=
  ⟨by decide, by decide, by decide,
    addExercises_unvalidated_batch emptyStore "u" "Legs" "n" _ 20000 50
      (by decide) (by decide) (by decide)⟩

/-- C7: when the workout insert succeeds and the exercise batch insert
then fails, `saveWorkout` reports the failure but performs no rollback:
the just-created workout row (created first, before the batch) is still
in the returned store, and no exercise of the batch was added. -/
theorem saveWorkout_no_rollback (st : Store) (uid n notes : String)
    (exs : List ExerciseInput) (today : Int) (now : Nat)
    (hn : strTrim n ≠ "") (he : exs ≠ []) :
    saveWorkout st uid n notes exs today now true false =
      (SaveResult.storeErrorExercises, insertWorkout st uid n notes today now) ∧
    (insertWorkout st uid n notes today now).exercises = st.exercises ∧
    (⟨st.nextId, uid, n, today, notes, now, now⟩ : WorkoutRow) ∈
      (insertWorkout st uid n notes today now).workouts := by
  have hlen : exs.length ≠ 0 := by
    intro h
    exact he (List.length_eq_zero.mp h)
  refine ⟨?_, rfl, ?_⟩
  · simp [saveWorkout, hn, hlen]
  · simp [insertWorkout]

/-- Witness for C7's theorem on a concrete failed batch. -/
theorem saveWorkout_no_rollback_witness :
    strTrim "Legs" ≠ "" ∧
    ([⟨"Squat", 3, 10, 100, ""⟩] : List ExerciseInput) ≠ [] ∧
    saveWorkout emptyStore "u" "Legs" "n" [⟨"Squat", 3, 10, 100, ""⟩] 20000 50 true false =
      (SaveResult.storeErrorExercises, insertWorkout emptyStore "u" "Legs" "n" 20000 50) ∧
    (insertWorkout emptyStore "u" "Legs" "n" 20000 50).exercises = emptyStore.exercises ∧
    (⟨emptyStore.nextId, "u", "Legs", 20000, "n", 50, 50⟩ : WorkoutRow) ∈
      (insertWorkout emptyStore "u" "Legs" "n" 20000 50).workouts :=
  ⟨by decide, by decide,
    saveWorkout_no_rollback emptyStore "u" "Legs" "n" _ 20000 50 (by decide) (by decide)⟩

/-- The mutating repository operations, as issued against the store:
workout insert (from `saveWorkout`), a generic workout row update (the
migration's trigger applies to any `UPDATE` on `workouts`), exercise
batch insert, and workout deletion. -/
inductive StoreOp where
  | insertW (uid name notes : String) (today : Int)
  | updateW (wid : Nat) (name notes : String)
  | insertE (wid : Nat) (exs : List ExerciseInput)
  | deleteW (wid : Nat)

/-- Apply one operation at wall-clock time `now`; a foreign-key-rejected
exercise insert leaves the store unchanged. -/
def applyOp (st : Store) (now : Nat) : StoreOp → Store
  | .insertW uid name notes today => insertWorkout st uid name notes today now
  | .updateW wid name notes => updateWorkout st wid name notes now
  | .insertE wid exs => (insertExercises st wid exs now).getD st
  | .deleteW wid => deleteWorkout st wid

/-- Run a sequence of timestamped operations. -/
def runOps (st : Store) : List (Nat × StoreOp) → Store
  | [] => st
  | (t, op) :: rest => runOps (applyOp st t op) rest

/-- The timestamps of an operation sequence are at least `t0` and
non-decreasing (the clock `NOW()` never goes backwards). -/
def timesOrdered : Nat → List (Nat × StoreOp) → Bool
  | _, [] => true
  | t0, (t, _) :: rest => decide (t0 ≤ t) && timesOrdered t rest

/-- Every stored workout id is below the id supply. -/
def IdsFresh (st : Store) : Prop := ∀ w ∈ st.workouts, w.id < st.nextId

/-- Every stored workout's `updated_at` is at most `t`. -/
def ClockBound (st : Store) (t : Nat) : Prop := ∀ w ∈ st.workouts, w.updated_at ≤ t

/-- Referential integrity: every exercise row references an existing
workout row. -/
def RefIntegrity (st : Store) : Prop :=
  ∀ e ∈ st.exercises, ∃ w ∈ st.workouts, w.id = e.workout_id

/-- `find?` over a map by an id-preserving function. -/
theorem find?_map_of_id_eq (f : WorkoutRow → WorkoutRow) (hf : ∀ w, (f w).id = w.id)
    (wid : Nat) :
    ∀ l : List WorkoutRow,
      (l.map f).find? (fun w => w.id = wid) = (l.find? (fun w => w.id = wid)).map f := by
  intro l
  induction l with
  | nil => simp
  | cons a l ih =>
      by_cases h : a.id = wid
      · have hfa : ((f a).id = wid) := by rw [hf]; exact h
        simp [List.find?_cons_of_pos, h, hfa]
      · have hfa : ¬ ((f a).id = wid) := by rw [hf]; exact h
        simp only [List.map_cons]
        rw [List.find?_cons_of_neg, List.find?_cons_of_neg, ih] <;> simp [h, hfa]

/-- `find?` is unchanged by filtering with a predicate implied by the
search predicate. -/
theorem find?_filter_of_imp {α : Type} (p q : α → Bool) (h : ∀ x, p x = true → q x = true) :
    ∀ l : List α, (l.filter q).find? p = l.find? p := by
  intro l
  induction l with
  | nil => simp
  | cons a l ih =>
      by_cases hp : p a = true
      · have hq := h a hp
        simp [List.filter_cons, hq, List.find?_cons_of_pos, hp, ih]
      · have hp' : p a = false := by simp_all
        by_cases hq : q a = true
        · simp [List.filter_cons, hq, hp', ih, List.find?_cons]
        · have hq' : q a = false := by simp_all
          simp [List.filter_cons, hq', hp', ih, List.find?_cons]

/-- The id supply never decreases across operations. -/
theorem nextId_mono_applyOp (st : Store) (t : Nat) (op : StoreOp) :
    st.nextId ≤ (applyOp st t op).nextId := by
  cases op with
  | insertW uid name notes today => simp [applyOp, insertWorkout]
  | updateW wid name notes => simp [applyOp, updateWorkout]
  | insertE wid exs =>
      simp only [applyOp, insertExercises]
      by_cases h : (st.workouts.any (fun w => w.id = wid)) = true
      · simp [h]
      · simp [h]
  | deleteW wid => simp [applyOp, deleteWorkout]

/-- Workout-id freshness is preserved by every operation. -/
theorem idsFresh_applyOp (st : Store) (t : Nat) (op : StoreOp) (h : IdsFresh st) :
    IdsFresh (applyOp st t op) := by
  cases op with
  | insertW uid name notes today =>
      intro w hw
      simp only [applyOp, insertWorkout, List.mem_append, List.mem_singleton] at hw ⊢
      rcases hw with hw | hw
      · exact Nat.lt_succ_of_lt (h w hw)
      · subst hw; exact Nat.lt_succ_self _
  | updateW wid name notes =>
      intro w hw
      simp only [applyOp, updateWorkout, List.mem_map] at hw
      obtain ⟨v, hv, rfl⟩ := hw
      have hid : (if v.id = wid
          then { v with name := name, notes := notes, updated_at := t } else v).id = v.id := by
        by_cases hc : v.id = wid <;> simp [hc]
      simp only [applyOp, updateWorkout, hid]
      exact h v hv
  | insertE wid exs =>
      intro w hw
      simp only [applyOp, insertExercises] at hw ⊢
      by_cases hc : (st.workouts.any (fun w => w.id = wid)) = true
      · simp only [hc, if_true, Option.getD_some] at hw ⊢
        exact Nat.lt_of_lt_of_le (h w hw) (Nat.le_add_right _ _)
      · simp only [if_neg hc, Option.getD_none] at hw ⊢
        exact h w hw
  | deleteW wid =>
      intro w hw
      simp only [applyOp, deleteWorkout, List.mem_filter] at hw
      exact h w hw.1

/-- The clock bound is preserved by an operation executed at the bound
time. -/
theorem clockBound_applyOp (st : Store) (t : Nat) (op : StoreOp) (h : ClockBound st t) :
    ClockBound (applyOp st t op) t := by
  cases op with
  | insertW uid name notes today =>
      intro w hw
      simp only [applyOp, insertWorkout, List.mem_append, List.mem_singleton] at hw
      rcases hw with hw | hw
      · exact h w hw
      · subst hw; exact Nat.le_refl _
  | updateW wid name notes =>
      intro w hw
      simp only [applyOp, updateWorkout, List.mem_map] at hw
      obtain ⟨v, hv, rfl⟩ := hw
      by_cases hid : v.id = wid <;> simp [hid]
      exact h v hv
  | insertE wid exs =>
      intro w hw
      simp only [applyOp, insertExercises] at hw
      by_cases hc : (st.workouts.any (fun w => w.id = wid)) = true
      · simp only [hc, if_true, Option.getD_some] at hw
        exact h w hw
      · simp only [if_neg hc, Option.getD_none] at hw
        exact h w hw
  | deleteW wid =>
      intro w hw
      simp only [applyOp, deleteWorkout, List.mem_filter] at hw
      exact h w hw.1

/-- Weakening of the clock bound. -/
theorem clockBound_mono {st : Store} {t t' : Nat} (h : ClockBound st t) (htt : t ≤ t') :
    ClockBound st t' :=
  fun w hw => Nat.le_trans (h w hw) htt

/-- Inserting a fresh workout does not disturb lookups of ids already in
use. -/
theorem findWorkout_insertW (st : Store) (uid name notes : String) (today : Int)
    (now : Nat) (wid : Nat) (hwid : wid < st.nextId) :
    findWorkout (insertWorkout st uid name notes today now) wid = findWorkout st wid := by
  simp only [findWorkout, insertWorkout, List.find?_append]
  have hnone : List.find? (fun w => w.id = wid)
      [(⟨st.nextId, uid, name, today, notes, now, now⟩ : WorkoutRow)] = none := by
    simp only [List.find?, decide_eq_true_eq]
    have : ¬ (st.nextId = wid) := by omega
    simp [this]
  rw [hnone, Option.or_none]

/-- Updating a workout row maps the lookup result through the row
transformation. -/
theorem findWorkout_updateW (st : Store) (tid : Nat) (name notes : String) (now : Nat)
    (wid : Nat) :
    findWorkout (updateWorkout st tid name notes now) wid =
      (findWorkout st wid).map (fun w =>
        if w.id = tid then { w with name := name, notes := notes, updated_at := now }
        else w) := by
  simp only [findWorkout, updateWorkout]
  exact find?_map_of_id_eq _ (fun w => by by_cases h : w.id = tid <;> simp [h]) wid _

/-- An exercise batch insert never changes the workouts relation: in
particular it touches no workout's `updated_at`. -/
theorem applyOp_insertE_workouts (st : Store) (t : Nat) (wid : Nat)
    (exs : List ExerciseInput) :
    (applyOp st t (.insertE wid exs)).workouts = st.workouts := by
  simp only [applyOp, insertExercises]
  by_cases hc : (st.workouts.any (fun w => w.id = wid)) = true
  · simp [hc]
  · rw [if_neg hc]
    rfl

/-- After deleting a workout its id no longer resolves. -/
theorem findWorkout_deleteW_self (st : Store) (wid : Nat) :
    findWorkout (deleteWorkout st wid) wid = none := by
  simp only [findWorkout, deleteWorkout]
  rw [List.find?_eq_none]
  intro x hx
  simp only [List.mem_filter, decide_eq_true_eq] at hx ⊢
  simp_all

/-- Deleting one workout does not disturb lookups of other ids. -/
theorem findWorkout_deleteW_other (st : Store) (tid wid : Nat) (h : wid ≠ tid) :
    findWorkout (deleteWorkout st tid) wid = findWorkout st wid := by
  simp only [findWorkout, deleteWorkout]
  apply find?_filter_of_imp
  intro x hx
  simp only [decide_eq_true_eq] at hx
  simp [hx, h]

/-- One-step tracking of a workout row's `created_at`/`updated_at`: any
operation either keeps the row (same `created_at`, `updated_at` not
decreased) or deletes it. -/
theorem tracked_step (st : Store) (t : Nat) (op : StoreOp) (wid : Nat) (c u : Nat)
    (hclock : ClockBound st t) (hwid : wid < st.nextId)
    (htr : (∃ w, findWorkout st wid = some w ∧ w.created_at = c ∧ u ≤ w.updated_at) ∨
      findWorkout st wid = none) :
    (∃ w, findWorkout (applyOp st t op) wid = some w ∧ w.created_at = c ∧
        u ≤ w.updated_at) ∨
      findWorkout (applyOp st t op) wid = none := by
  cases op with
  | insertW uid name notes today =>
      simp only [applyOp]
      rw [findWorkout_insertW st uid name notes today t wid hwid]
      exact htr
  | updateW tid name notes =>
      have hfw := findWorkout_updateW st tid name notes t wid
      rcases htr with ⟨w, hw, hc, hu⟩ | hnone
      · left
        simp only [applyOp]
        rw [hfw, hw]
        refine ⟨_, rfl, ?_, ?_⟩
        · by_cases h : w.id = tid <;> simp [h, hc]
        · by_cases h : w.id = tid
          · have hw' : st.workouts.find? (fun v => v.id = wid) = some w := hw
            have hmem : w ∈ st.workouts := List.mem_of_find?_eq_some hw'
            have hut : w.updated_at ≤ t := hclock w hmem
            simp only [if_pos h]
            exact Nat.le_trans hu hut
          · simp [h, hu]
      · right
        simp only [applyOp]
        rw [hfw, hnone]
        rfl
  | insertE tid exs =>
      have hfw : findWorkout (applyOp st t (.insertE tid exs)) wid = findWorkout st wid := by
        simp only [findWorkout, applyOp_insertE_workouts]
      rw [hfw]
      exact htr
  | deleteW tid =>
      by_cases h : wid = tid
      · right
        subst h
        exact findWorkout_deleteW_self st wid
      · have heq : findWorkout (applyOp st t (.deleteW tid)) wid = findWorkout st wid :=
          findWorkout_deleteW_other st tid wid h
        rw [heq]
        exact htr

/-- Run-level tracking: across an ordered operation sequence, a tracked
workout keeps its `created_at` and its `updated_at` never decreases, or
it is (and stays) deleted. -/
theorem tracked_run (wid c u : Nat) :
    ∀ (ops : List (Nat × StoreOp)) (st : Store) (t0 : Nat),
      IdsFresh st → ClockBound st t0 → timesOrdered t0 ops = true → wid < st.nextId →
      ((∃ w, findWorkout st wid = some w ∧ w.created_at = c ∧ u ≤ w.updated_at) ∨
        findWorkout st wid = none) →
      ((∃ w, findWorkout (runOps st ops) wid = some w ∧ w.created_at = c ∧
          u ≤ w.updated_at) ∨
        findWorkout (runOps st ops) wid = none) := by
  intro ops
  induction ops with
  | nil =>
      intro st t0 _ _ _ _ htr
      exact htr
  | cons p rest ih =>
      obtain ⟨t, op⟩ := p
      intro st t0 hfresh hclock hord hwid htr
      simp only [timesOrdered, Bool.and_eq_true, decide_eq_true_eq] at hord
      obtain ⟨ht0, hrest⟩ := hord
      have hclock' : ClockBound st t := clockBound_mono hclock ht0
      exact ih (applyOp st t op) t (idsFresh_applyOp st t op hfresh)
        (clockBound_applyOp st t op hclock') hrest
        (Nat.lt_of_lt_of_le hwid (nextId_mono_applyOp st t op))
        (tracked_step st t op wid c u hclock' hwid htr)

/-- A store with one workout whose `updated_at` is 10. -/
def updDemoStore : Store := ⟨[⟨0, "u", "Legs", 20000, "", 10, 10⟩], [], 1⟩

/-- C4 counterexample: adding an exercise batch at time 20 to the
workout created at time 10 succeeds (the exercise row appears) yet the
affected workout row is byte-for-byte unchanged — its `updated_at` is
still 10, not refreshed: the trigger fires only on `UPDATE workouts`,
and an insert into `exercises` is not such an update. -/
theorem addExercises_no_refresh_counterexample :
    (applyOp updDemoStore 20 (.insertE 0 [⟨"Squat", 3, 10, 100, ""⟩])).exercises.length = 1 ∧
    findWorkout (applyOp updDemoStore 20 (.insertE 0 [⟨"Squat", 3, 10, 100, ""⟩])) 0 =
      some ⟨0, "u", "Legs", 20000, "", 10, 10⟩ := by
  constructor
  · decide
  · decide

/-- C4 (amended): `updated_at` is refreshed by the trigger exactly on
updates of the `workouts` row itself; an exercise batch insert leaves
the workouts relation — hence the parent's `updated_at` — untouched; and
across any time-ordered sequence of operations a surviving workout's
`created_at` never changes while its `updated_at` is monotonically
non-decreasing. -/
theorem updated_at_lifecycle :
    (∀ (st : Store) (tid : Nat) (name notes : String) (now : Nat) (w : WorkoutRow),
        findWorkout st tid = some w →
        findWorkout (updateWorkout st tid name notes now) tid =
          some { w with name := name, notes := notes, updated_at := now }) ∧
    (∀ (st : Store) (t : Nat) (wid : Nat) (exs : List ExerciseInput),
        (applyOp st t (.insertE wid exs)).workouts = st.workouts) ∧
    (∀ (st : Store) (ops : List (Nat × StoreOp)) (t0 : Nat) (wid : Nat) (w w' : WorkoutRow),
        IdsFresh st → ClockBound st t0 → timesOrdered t0 ops = true →
        findWorkout st wid = some w → findWorkout (runOps st ops) wid = some w' →
        w'.created_at = w.created_at ∧ w.updated_at ≤ w'.updated_at) := by
  refine ⟨?_, applyOp_insertE_workouts, ?_⟩
  · intro st tid name notes now w h
    have h' : st.workouts.find? (fun v => v.id = tid) = some w := h
    have hid : w.id = tid := by simpa using List.find?_some h'
    rw [findWorkout_updateW, h]
    simp [hid]
  · intro st ops t0 wid w w' hfresh hclock hord hw hw'
    have h' : st.workouts.find? (fun v => v.id = wid) = some w := hw
    have hmem : w ∈ st.workouts := List.mem_of_find?_eq_some h'
    have hid : w.id = wid := by simpa using List.find?_some h'
    have hwid : wid < st.nextId := by
      have := hfresh w hmem
      omega
    have htr := tracked_run wid w.created_at w.updated_at ops st t0 hfresh hclock hord hwid
      (Or.inl ⟨w, hw, rfl, Nat.le_refl _⟩)
    rcases htr with ⟨w'', hsome, hc, hu⟩ | hnone
    · have : some w' = some w'' := hw'.symm.trans hsome
      have heq : w' = w'' := by injection this
      subst heq
      exact ⟨hc, hu⟩
    · rw [hw'] at hnone
      cases hnone

/-- A one-workout store at clock time 5, and a pair of later operations:
a row update at time 10 and an exercise insert at time 20. -/
def clockDemoStore : Store := ⟨[⟨0, "u", "A", 1, "", 5, 5⟩], [], 1⟩

/-- Operation sequence for the C4 witness. -/
def clockDemoOps : List (Nat × StoreOp) :=
  [(10, .updateW 0 "B" ""), (20, .insertE 0 [⟨"Sq", 1, 1, 1, ""⟩])]

/-- Witness for C4's amended theorem on a concrete run. -/
theorem updated_at_lifecycle_witness :
    IdsFresh clockDemoStore ∧ ClockBound clockDemoStore 5 ∧
    timesOrdered 5 clockDemoOps = true ∧
    findWorkout clockDemoStore 0 = some ⟨0, "u", "A", 1, "", 5, 5⟩ ∧
    findWorkout (runOps clockDemoStore clockDemoOps) 0 = some ⟨0, "u", "B", 1, "", 5, 10⟩ ∧
    ((⟨0, "u", "B", 1, "", 5, 10⟩ : WorkoutRow).created_at =
        (⟨0, "u", "A", 1, "", 5, 5⟩ : WorkoutRow).created_at ∧
      (⟨0, "u", "A", 1, "", 5, 5⟩ : WorkoutRow).updated_at ≤
        (⟨0, "u", "B", 1, "", 5, 10⟩ : WorkoutRow).updated_at) :=
  ⟨by unfold IdsFresh; decide, by unfold ClockBound; decide, by decide, by decide, by decide,
    updated_at_lifecycle.2.2 clockDemoStore clockDemoOps 5 0 _ _ (by unfold IdsFresh; decide)
      (by unfold ClockBound; decide) (by decide) (by decide) (by decide)⟩

/-- Referential integrity is preserved by every operation: new exercises
are only accepted with an existing parent, updates keep ids, and a
workout deletion cascades to its exercises. -/
theorem refIntegrity_applyOp (st : Store) (t : Nat) (op : StoreOp) (h : RefIntegrity st) :
    RefIntegrity (applyOp st t op) := by
  cases op with
  | insertW uid name notes today =>
      intro e he
      simp only [applyOp, insertWorkout] at he ⊢
      obtain ⟨w, hw, hid⟩ := h e he
      exact ⟨w, List.mem_append_left _ hw, hid⟩
  | updateW tid name notes =>
      intro e he
      simp only [applyOp, updateWorkout] at he ⊢
      obtain ⟨w, hw, hid⟩ := h e he
      refine ⟨if w.id = tid then { w with name := name, notes := notes, updated_at := t }
        else w, List.mem_map_of_mem _ hw, ?_⟩
      by_cases hc : w.id = tid
      · simp only [if_pos hc]
        exact hid
      · simp only [if_neg hc]
        exact hid
  | insertE tid exs =>
      intro e he
      simp only [applyOp, insertExercises] at he ⊢
      by_cases hc : (st.workouts.any (fun w => w.id = tid)) = true
      · simp only [hc, if_true, Option.getD_some] at he ⊢
        rcases List.mem_append.mp he with h1 | h2
        · exact h e h1
        · obtain ⟨w, hw, hid⟩ : ∃ w ∈ st.workouts, w.id = tid := by
            simpa using List.any_eq_true.mp hc
          obtain ⟨p, hp, rfl⟩ := List.mem_map.mp h2
          exact ⟨w, hw, hid⟩
      · simp only [if_neg hc, Option.getD_none] at he ⊢
        exact h e he
  | deleteW tid =>
      intro e he
      simp only [applyOp, deleteWorkout, List.mem_filter] at he ⊢
      obtain ⟨he1, he2⟩ := he
      obtain ⟨w, hw, hid⟩ := h e he1
      simp only [decide_eq_true_eq] at he2
      refine ⟨w, ⟨hw, ?_⟩, hid⟩
      simp only [decide_eq_true_eq]
      rw [hid]
      exact he2

/-- Referential integrity is preserved across any run. -/
theorem refIntegrity_run : ∀ (ops : List (Nat × StoreOp)) (st : Store),
    RefIntegrity st → RefIntegrity (runOps st ops) := by
  intro ops
  induction ops with
  | nil =>
      intro st h
      exact h
  | cons p rest ih =>
      obtain ⟨t, op⟩ := p
      intro st h
      exact ih _ (refIntegrity_applyOp st t op h)

/-- C5: deleting a workout cascades — afterwards `getExercisesFor` on
the deleted id returns the empty sequence — and referential integrity
(no exercise without its parent workout) is preserved by every
operation sequence, so no Exercise ever exists without its Workout. -/
theorem deleteWorkout_cascade :
    (∀ (st : Store) (wid : Nat), getExercisesFor (deleteWorkout st wid) wid = []) ∧
    (∀ (st : Store) (ops : List (Nat × StoreOp)),
        RefIntegrity st → RefIntegrity (runOps st ops)) := by
  refine ⟨?_, fun st ops h => refIntegrity_run ops st h⟩
  intro st wid
  simp only [getExercisesFor, deleteWorkout, List.filter_filter]
  rw [List.filter_eq_nil_iff]
  intro e _
  simp

/-- A store with one workout (id 0) and one exercise referencing it. -/
def cascadeDemo : Store :=
  ⟨[⟨0, "u", "Legs", 1, "", 5, 5⟩], [⟨1, 0, "Squat", 3, 10, 100, "", 5⟩], 2⟩

/-- Witness for C5 on a concrete store and run. -/
theorem deleteWorkout_cascade_witness :
    getExercisesFor (deleteWorkout cascadeDemo 0) 0 = [] ∧
    RefIntegrity cascadeDemo ∧
    RefIntegrity (runOps cascadeDemo [(6, .deleteW 0)]) :=
  ⟨deleteWorkout_cascade.1 cascadeDemo 0, by unfold RefIntegrity; decide,
    deleteWorkout_cascade.2 cascadeDemo [(6, .deleteW 0)] (by unfold RefIntegrity; decide)⟩

/-- The `Exercise` interface of `History.tsx` (lines 11-18). -/
structure HExercise where
  id : String
  name : String
  sets : Int
  reps : Int
  weight : Int
  notes : Option String
deriving DecidableEq, Repr

/-- The `Workout` interface of `History.tsx` (lines 20-27), after
`fetchWorkouts` attached `exercises` and initialized `expanded` to
`false` for every row (lines 60-64). -/
structure HWorkout where
  id : String
  name : String
  date : Int
  notes : Option String
  exercises : List HExercise
  expanded : Bool
deriving DecidableEq, Repr

/-- `toggleWorkout` from `History.tsx` (lines 80-86): map over the list,
spreading each matching workout with its `expanded` flag negated. -/
def toggleWorkout (i : String) (workouts : List HWorkout) : List HWorkout :=
  workouts.map (fun w => if w.id = i then { w with expanded := !w.expanded } else w)

/-- C10: toggling an id is an involution — toggling the same id twice
restores the original list — and it is local: every entry keeps its
position, ids, names, dates, notes and exercises are unchanged, only the
`expanded` flag of entries whose id matches is negated, and entries with
a different id are entirely untouched. -/
theorem toggleWorkout_involution_and_local (ws : List HWorkout) (i : String) :
    toggleWorkout i (toggleWorkout i ws) = ws ∧
    ∀ (n : Nat) (w w' : HWorkout), ws[n]? = some w → (toggleWorkout i ws)[n]? = some w' →
      w'.id = w.id ∧ w'.name = w.name ∧ w'.date = w.date ∧ w'.notes = w.notes ∧
      w'.exercises = w.exercises ∧
      w'.expanded = (if w.id = i then !w.expanded else w.expanded) ∧
      (w.id ≠ i → w' = w) := by
  constructor
  · induction ws with
    | nil => rfl
    | cons a l ih =>
        obtain ⟨aid, aname, adate, anotes, aexs, aexp⟩ := a
        simp only [toggleWorkout, List.map_cons] at ih ⊢
        by_cases h : aid = i
        · simp [h, Bool.not_not, ih]
        · simp [h, ih]
  · intro n w w' hw hw'
    have hmap : (toggleWorkout i ws)[n]? = (ws[n]?).map
        (fun w => if w.id = i then { w with expanded := !w.expanded } else w) := by
      simp [toggleWorkout, List.getElem?_map]
    rw [hmap, hw] at hw'
    have hfw : (if w.id = i then { w with expanded := !w.expanded } else w) = w' := by
      injection hw'
    by_cases h : w.id = i
    · rw [if_pos h] at hfw
      subst hfw
      simp [h]
    · rw [if_neg h] at hfw
      subst hfw
      simp [h]

/-- A concrete two-entry history list for the C10 witness. -/
def demoHistory : List HWorkout :=
  [⟨"a", "Legs", 1, none, [], false⟩, ⟨"b", "Push", 2, none, [], false⟩]

/-- Witness for C10 on `demoHistory`: double toggle restores the list,
and the single toggle of entry 0 flips only its `expanded` flag. -/
theorem toggleWorkout_involution_witness :
    toggleWorkout "a" (toggleWorkout "a" demoHistory) = demoHistory ∧
    demoHistory[0]? = some ⟨"a", "Legs", 1, none, [], false⟩ ∧
    (toggleWorkout "a" demoHistory)[0]? = some ⟨"a", "Legs", 1, none, [], true⟩ ∧
    ((⟨"a", "Legs", 1, none, [], true⟩ : HWorkout).id =
        (⟨"a", "Legs", 1, none, [], false⟩ : HWorkout).id ∧
      (⟨"a", "Legs", 1, none, [], true⟩ : HWorkout).name =
        (⟨"a", "Legs", 1, none, [], false⟩ : HWorkout).name ∧
      (⟨"a", "Legs", 1, none, [], true⟩ : HWorkout).date =
        (⟨"a", "Legs", 1, none, [], false⟩ : HWorkout).date ∧
      (⟨"a", "Legs", 1, none, [], true⟩ : HWorkout).notes =
        (⟨"a", "Legs", 1, none, [], false⟩ : HWorkout).notes ∧
      (⟨"a", "Legs", 1, none, [], true⟩ : HWorkout).exercises =
        (⟨"a", "Legs", 1, none, [], false⟩ : HWorkout).exercises ∧
      (⟨"a", "Legs", 1, none, [], true⟩ : HWorkout).expanded =
        (if (⟨"a", "Legs", 1, none, [], false⟩ : HWorkout).id = "a"
          then !(⟨"a", "Legs", 1, none, [], false⟩ : HWorkout).expanded
          else (⟨"a", "Legs", 1, none, [], false⟩ : HWorkout).expanded) ∧
      ((⟨"a", "Legs", 1, none, [], false⟩ : HWorkout).id ≠ "a" →
        (⟨"a", "Legs", 1, none, [], true⟩ : HWorkout) =
          ⟨"a", "Legs", 1, none, [], false⟩)) :=
  ⟨(toggleWorkout_involution_and_local demoHistory "a").1, by decide, by decide,
    (toggleWorkout_involution_and_local demoHistory "a").2 0 _ _ (by decide) (by decide)⟩
